import Mathlib

/-!
Verification of the YoyoChinese-flashcards export script (`yoyo_to_anki.py`).

Shallow embedding conventions: Python strings are Lean `String`s (except the
tab-separated serialization layer, where a Python string is modelled as its
character list `List Char` so that splitting and joining can be reasoned
about); a Python value that may be `None` is an `Option`; Python `dict.get`
of an absent key is `none`.  Effectful parts (HTTP, filesystem, sleeping) are
modelled by explicit state: the paginated fetcher consumes a list of page
responses, and the downloader consumes a map from attempt number to outcome
together with a record of which files exist.
-/

/-- One normalized flashcard record, mirroring the `Flashcard` dataclass. -/
structure Flashcard where
  id : String
  code : String
  masteryLevel : Option Int
  wordType : Option Int
  simplified : String
  traditional : String
  pinyin : String
  english1 : String
  english2 : String
  audio_code_normal : Option String
  audio_code_slow : Option String
deriving DecidableEq, Repr

/-- The `content` sub-object of one raw API record: each key may be absent. -/
structure RawContent where
  simplified : Option String
  traditional : Option String
  pinyin : Option String
  english1 : Option String
  english2 : Option String
  normal : Option String
  slow : Option String
deriving DecidableEq, Repr

/-- One raw API record as `Flashcard.from_api` reads it.  `idKey` models the
`"id"` key and `idKey2` the `"_id"` key. -/
structure RawRecord where
  idKey : Option String
  idKey2 : Option String
  code : Option String
  masteryLevel : Option Int
  wordType : Option Int
  content : RawContent
deriving DecidableEq, Repr

/-- Python `str.strip()` with no argument: remove leading and trailing
whitespace characters.  Defined over the character list so that it can be
evaluated inside proofs. -/
def pyStrip (s : String) : String :=
  ⟨((s.data.dropWhile Char.isWhitespace).reverse.dropWhile
      Char.isWhitespace).reverse⟩

/-- Python `v or dflt` for an optional string `v`: an absent or empty string
is falsy and falls through to the default. -/
def pyOrStr (v : Option String) (dflt : String) : String :=
  match v with
  | some s => if s = "" then dflt else s
  | none => dflt

/-- The static method `Flashcard.from_api` (src/yoyo_to_anki.py lines 109-124): build a
`Flashcard` from a raw record, trimming text fields and defaulting them to
the empty string, passing optional integers through, and resolving `id` as
`str(obj.get("id") or obj.get("_id") or "")`. -/
def Flashcard.from_api (obj : RawRecord) : Flashcard :=
  ⟨pyOrStr obj.idKey (pyOrStr obj.idKey2 ""),
   pyOrStr obj.code "",
   obj.masteryLevel,
   obj.wordType,
   pyStrip (pyOrStr obj.content.simplified ""),
   pyStrip (pyOrStr obj.content.traditional ""),
   pyStrip (pyOrStr obj.content.pinyin ""),
   pyStrip (pyOrStr obj.content.english1 ""),
   pyStrip (pyOrStr obj.content.english2 ""),
   obj.content.normal,
   obj.content.slow⟩

/-- The method `Flashcard.audio_filename` (lines 126-134): the audio code selected by
`speed`, with Python truthiness (`if not code: return None`), suffixed with
`.mp3`. -/
def Flashcard.audio_filename (card : Flashcard) (speed : String) : Option String :=
  let code : Option String :=
    if speed = "normal" then card.audio_code_normal
    else if speed = "slow" then card.audio_code_slow
    else none
  match code with
  | some c => if c = "" then none else some (c ++ ".mp3")
  | none => none

/-- The function `to_simple_fields` (lines 273-286): compact two-field rendering, returning
(front, back, audio filename). -/
def to_simple_fields (card : Flashcard) (include_audio : Bool) (speed : String) :
    String × String × Option String :=
  let audio_fn := card.audio_filename speed
  let front :=
    match include_audio, audio_fn with
    | true, some fn => card.simplified ++ " [sound:" ++ fn ++ "]"
    | _, _ => card.simplified
  let english :=
    if card.english2 = "" then card.english1
    else card.english1 ++ " | " ++ card.english2
  let back :=
    if card.pinyin = "" then english
    else card.pinyin ++ " — " ++ english
  (front, back, audio_fn)

/-- The function `_word_type_label` (lines 289-294). -/
def word_type_label (word_type : Option Int) : String :=
  if word_type = some 2 then "Word"
  else if word_type = some 3 then "Sentence"
  else ""

/-- The function `to_rich_fields` (lines 297-313): seven-field rendering, returning
(fields, audio filename); the audio filename is resolved only when
`include_audio` is set. -/
def to_rich_fields (card : Flashcard) (include_audio : Bool) (speed : String) :
    List String × Option String :=
  let english :=
    if card.english2 = "" then card.english1
    else card.english1 ++ " | " ++ card.english2
  let audio_fn := if include_audio then card.audio_filename speed else none
  let audio_field :=
    match audio_fn with
    | some fn => "[sound:" ++ fn ++ "]"
    | none => ""
  ([card.simplified, card.pinyin, english, card.traditional, audio_field,
    card.code, word_type_label card.wordType], audio_fn)

/-- A concrete card that has normal-speed audio, used as input for the claims
about the formatters. -/
def sampleAudioCard : Flashcard :=
  ⟨"id1", "L1-1", some 1, some 2, "你好", "你好", "nǐ hǎo", "hello", "",
   some "abc123", none⟩

/-! ## Paginated fetcher (`fetch_all_flashcards`, lines 236-270)

One page response carries the already-mapped batch
`[Flashcard.from_api(x) for x in data.get("flashcards", [])]` and the
optional reported `totalFlashcards`.  The server is modelled as the list of
responses to pages 1, 2, 3, …; a request past the end of the list yields an
empty page with no reported total. -/

/-- One page response of the card-listing API. -/
structure Page where
  flashcards : List Flashcard
  totalFlashcards : Option Nat
deriving DecidableEq, Repr

/-- The test `max_cards is not None and len(cards) >= max_cards`. -/
def capReached (max_cards : Option Nat) (n : Nat) : Bool :=
  match max_cards with
  | some m => decide (m ≤ n)
  | none => false

/-- The test `total is not None and len(cards) >= total`. -/
def totalReached (total : Option Nat) (n : Nat) : Bool :=
  match total with
  | some t => decide (t ≤ n)
  | none => false

/-- The body of the `while True` pagination loop, one recursive call per page
request.  State: remaining page responses, the `total` variable (`None` until
a page reports `totalFlashcards`), and the `cards` accumulator. -/
def fetch_go (max_cards : Option Nat) :
    List Page → Option Nat → List Flashcard → List Flashcard
  | [], _, cards =>
      if capReached max_cards cards.length then cards.take (max_cards.getD 0)
      else cards
  | p :: rest, total, cards =>
      let cards2 := cards ++ p.flashcards
      let total2 := total.or p.totalFlashcards
      if capReached max_cards cards2.length then cards2.take (max_cards.getD 0)
      else if p.flashcards.isEmpty then cards2
      else if totalReached total2 cards2.length then cards2
      else fetch_go max_cards rest total2 cards2

/-- The function `fetch_all_flashcards`: run the pagination loop from page 1 with an empty
accumulator and no total. -/
def fetch_all_flashcards (pages : List Page) (max_cards : Option Nat) :
    List Flashcard :=
  fetch_go max_cards pages none []

/-- Cards accumulated once the first `j` pages have been consumed, starting
from accumulator `acc`. -/
def accAfter (acc : List Flashcard) (pages : List Page) (j : Nat) :
    List Flashcard :=
  acc ++ ((pages.take j).map Page.flashcards).flatten

/-- The `total` variable once the first `j` pages have been consumed: the
incoming value if already set, else the first reported `totalFlashcards`
among those pages. -/
def totAfter (total : Option Nat) (pages : List Page) (j : Nat) : Option Nat :=
  total.or ((pages.take j).filterMap Page.totalFlashcards).head?

/-- The batch returned by the `j`-th page request (1-based); a request past
the provided responses returns an empty batch. -/
def batchAt (pages : List Page) (j : Nat) : List Flashcard :=
  match (pages.drop (j - 1)).head? with
  | some p => p.flashcards
  | none => []

/-- The loop's stop condition as evaluated right after consuming page `j`:
cap reached, or empty batch, or reported total reached. -/
def stopAt (max_cards : Option Nat) (total : Option Nat) (acc : List Flashcard)
    (pages : List Page) (j : Nat) : Bool :=
  capReached max_cards (accAfter acc pages j).length
    || (batchAt pages j).isEmpty
    || totalReached (totAfter total pages j) (accAfter acc pages j).length

/-- The value the loop returns when it stops after page `j`: the accumulator,
truncated to exactly the cap when the cap condition fired. -/
def resultAt (max_cards : Option Nat) (acc : List Flashcard)
    (pages : List Page) (j : Nat) : List Flashcard :=
  if capReached max_cards (accAfter acc pages j).length then
    (accAfter acc pages j).take (max_cards.getD 0)
  else accAfter acc pages j

/-- A concrete page reporting no total. -/
def pageNoTotal : Page := ⟨[sampleAudioCard], none⟩

/-- A concrete page reporting a total of 5. -/
def pageTotalFive : Page := ⟨[sampleAudioCard], some 5⟩

/-- A concrete tail of pages whose later reported totals are one thing. -/
def tailTotalsA : List Page := [⟨[sampleAudioCard], some 100⟩, ⟨[], none⟩]

/-- The same tail of pages with different later reported totals. -/
def tailTotalsB : List Page := [⟨[sampleAudioCard], some 2⟩, ⟨[], some 7⟩]

/-! ## Concurrent downloader, per-task retry loop (`http_download`, lines
172-233)

One call of `http_download` is modelled by the outcomes of its fetch
attempts (attempt number ↦ success or raised exception), the existence of
the temporary `.part` sibling and of the final destination file, and the
exact sequence of backoff sleeps.  Delays are exact rationals. -/

/-- The outcome of one fetch attempt: the body was streamed in full, or some
exception (carried as text) was raised during the attempt. -/
inductive Attempt where
  | ok : Attempt
  | err : String → Attempt
deriving DecidableEq, Repr

/-- Which of the two paths touched by `http_download` exist on disk:
`tmp` is `dest_path + ".part"`, `dest` is `dest_path`. -/
structure FS where
  tmp : Bool
  dest : Bool
deriving DecidableEq, Repr

/-- How one `http_download` call ended: returned normally, or raised
`RuntimeError` carrying the last underlying failure. -/
inductive DlResult where
  | success : DlResult
  | failure : Option String → DlResult
deriving DecidableEq, Repr

/-- Everything observable about one `http_download` call. -/
structure DownloadRun where
  result : DlResult
  fs : FS
  attemptsMade : Nat
  sleeps : List ℚ
deriving DecidableEq, Repr

/-- The backoff sleep taken after failed attempt number `attempt`:
`backoff * (2 ** (attempt - 1)) + min(0.25, 0.05 * attempt)`. -/
def backoffSleep (backoff : ℚ) (attempt : Nat) : ℚ :=
  backoff * 2 ^ (attempt - 1) + min (1 / 4 : ℚ) ((attempt : ℚ) / 20)

/-- The `for attempt in range(1, max(1, retries) + 1)` loop of
`http_download`, one recursive call per attempt number.  Each attempt first
removes a leftover `.part` file; on success the streamed `.part` file is
atomically renamed onto the destination and the call returns; on an
exception the `.part` file is removed again, and the loop either breaks
(attempt budget spent, the `RuntimeError` carries the last error) or sleeps
and retries. -/
def runAttempts (outcomes : Nat → Attempt) (retries : Nat) (backoff : ℚ) :
    List Nat → FS → Option String → List ℚ → Nat → DownloadRun
  | [], fs, lastErr, sleeps, made => ⟨DlResult.failure lastErr, fs, made, sleeps⟩
  | attempt :: rest, fs, _, sleeps, made =>
      match outcomes attempt with
      | Attempt.ok => ⟨DlResult.success, ⟨false, true⟩, made + 1, sleeps⟩
      | Attempt.err e =>
          let fs2 : FS := ⟨false, fs.dest⟩
          if retries ≤ attempt then
            ⟨DlResult.failure (some e), fs2, made + 1, sleeps⟩
          else
            runAttempts outcomes retries backoff rest fs2 (some e)
              (sleeps ++ [backoffSleep backoff attempt]) (made + 1)

/-- The function `http_download` with the given attempt outcomes, retry budget, base
backoff delay, and initial filesystem state. -/
def http_download (outcomes : Nat → Attempt) (retries : Nat) (backoff : ℚ)
    (fs : FS) : DownloadRun :=
  runAttempts outcomes retries backoff (List.range' 1 (max 1 retries)) fs none [] 0

/-- The script's default retry budget (`retries: int = 4`). -/
def DEFAULT_RETRIES : Nat := 4

/-- The script's default base backoff delay (`backoff: float = 0.75`). -/
def DEFAULT_BACKOFF : ℚ := 3 / 4

/-- A concrete schedule of attempt outcomes in which every attempt raises. -/
def failingOutcomes : Nat → Attempt := fun i => Attempt.err ("boom " ++ toString i)

/-- The error texts of `failingOutcomes`. -/
def failingErrs : Nat → String := fun i => "boom " ++ toString i

/-! ## Task deduplication (`main`, lines 573-577)

`unique_pairs = list(dict.fromkeys(audio_to_download))`: keep the first
occurrence of each (url, dest) pair, in first-seen order. -/

/-- The pairs of `l` not yet in `seen`, first occurrences only, in order. -/
def dedupGo (seen : List (String × String)) :
    List (String × String) → List (String × String)
  | [] => []
  | p :: rest =>
      if p ∈ seen then dedupGo seen rest
      else p :: dedupGo (p :: seen) rest

/-- The expression `list(dict.fromkeys(l))` on (url, destination) pairs. -/
def dedup_tasks (l : List (String × String)) : List (String × String) :=
  dedupGo [] l

/-- Modelled from the spec: "first occurrence wins, order preserved" — keep
each list's head and drop its later duplicates before deduplicating the
rest.  Used as the specification-side definition compared with
`dedup_tasks`. -/
def dedupSpec : List (String × String) → List (String × String)
  | [] => []
  | p :: rest => p :: dedupSpec (rest.filter (fun q => decide (q ≠ p)))
termination_by l => l.length
decreasing_by
  simp only [List.length_cons]
  exact Nat.lt_succ_of_le (List.length_filter_le _ _)

/-! ## Output buckets (`main`, lines 490-517 and 519-571)

In the non-levels branch each card is appended to exactly one of three
accumulators: the "Word" bucket, the "Sentence" bucket (both only consulted
when `--split-by-wordtype` is set and the card's label matches), or the
unsplit accumulator, called "All" here.  In the levels branch the cards
fetched for one level form that level's bucket. -/

/-- The bucket a card is appended to in the non-levels branch:
`label if split_by_wordtype and label in {"Word", "Sentence"} else "All"`. -/
def bucketKey (split_by_wordtype : Bool) (card : Flashcard) : String :=
  let label := word_type_label card.wordType
  if split_by_wordtype && (label == "Word" || label == "Sentence") then label
  else "All"

/-- The three accumulators (Word, Sentence, All) after the card loop of the
non-levels branch. -/
def accumulateBuckets (split_by_wordtype : Bool) :
    List Flashcard → List Flashcard × List Flashcard × List Flashcard
  | [] => ([], [], [])
  | c :: rest =>
      let r := accumulateBuckets split_by_wordtype rest
      if bucketKey split_by_wordtype c = "Word" then (c :: r.1, r.2.1, r.2.2)
      else if bucketKey split_by_wordtype c = "Sentence" then (r.1, c :: r.2.1, r.2.2)
      else (r.1, r.2.1, c :: r.2.2)

/-- The per-level buckets of the levels branch: the cards fetched for each
level, in level order (lines 490-499 append each level's cards to its own
bucket). -/
def accumulateLevels (cards_by_level : List (List Flashcard)) :
    List (List Flashcard) :=
  cards_by_level.map (fun lvl => lvl.foldl (fun acc c => acc ++ [c]) [])

/-- The named nonempty buckets written by the split-by-wordtype branch of the
TSV-writing stage (lines 543-558): only the Word and Sentence accumulators
are consulted. -/
def writtenBucketsSplit (cards : List Flashcard) :
    List (String × List Flashcard) :=
  let r := accumulateBuckets true cards
  (([("Word", r.1), ("Sentence", r.2.1)] :
      List (String × List Flashcard)).filter (fun kv => !kv.2.isEmpty))

/-- A concrete card whose `wordType` is neither 2 nor 3. -/
def unlabeledCard : Flashcard :=
  ⟨"id9", "L9-9", none, some 5, "水", "水", "shuǐ", "water", "", none, none⟩

/-! ## TSV line serialization (`write_tsv_simple` lines 316-319,
`write_tsv_rich` lines 322-326)

Here a Python string is modelled as its list of characters.  Each field has
every literal tab replaced by a single space (`x.replace("\t", " ")`), and
the sanitized fields are joined with a tab. -/

/-- The expression `x.replace("\t", " ")` on one field. -/
def sanitizeField (s : List Char) : List Char :=
  s.map (fun c => if c = '\t' then ' ' else c)

/-- The line written for one (front, back) row by `write_tsv_simple`
(without the trailing newline). -/
def tsv_simple_line (front back : List Char) : List Char :=
  sanitizeField front ++ '\t' :: sanitizeField back

/-- The line written for one field list by `write_tsv_rich` (without the
trailing newline): `"\t".join(safe)`. -/
def tsv_rich_line (fields : List (List Char)) : List Char :=
  List.intercalate ['\t'] (fields.map sanitizeField)

/-! ## Theorems -/

/-- Claim C5: for every raw API record, `Flashcard.from_api` yields the empty
string (never an absent value) for each missing textual field and trims
surrounding whitespace from present ones, yields absent (not zero) for
missing optional integer fields, resolves identity as the primary id key,
then the secondary key, then the empty string, without ever failing; and the
derived audio filename for a speed is present iff the corresponding audio
code is present and non-empty, in which case it is the code followed by
`.mp3`. -/
theorem from_api_missing_fields_spec (obj : RawRecord) :
    (obj.content.simplified = none → (Flashcard.from_api obj).simplified = "")
  ∧ (obj.content.traditional = none → (Flashcard.from_api obj).traditional = "")
  ∧ (obj.content.pinyin = none → (Flashcard.from_api obj).pinyin = "")
  ∧ (obj.content.english1 = none → (Flashcard.from_api obj).english1 = "")
  ∧ (obj.content.english2 = none → (Flashcard.from_api obj).english2 = "")
  ∧ (∀ s, obj.content.simplified = some s →
      (Flashcard.from_api obj).simplified = pyStrip s)
  ∧ (∀ s, obj.content.traditional = some s →
      (Flashcard.from_api obj).traditional = pyStrip s)
  ∧ (∀ s, obj.content.pinyin = some s →
      (Flashcard.from_api obj).pinyin = pyStrip s)
  ∧ (∀ s, obj.content.english1 = some s →
      (Flashcard.from_api obj).english1 = pyStrip s)
  ∧ (∀ s, obj.content.english2 = some s →
      (Flashcard.from_api obj).english2 = pyStrip s)
  ∧ (obj.masteryLevel = none → (Flashcard.from_api obj).masteryLevel = none)
  ∧ (obj.wordType = none → (Flashcard.from_api obj).wordType = none)
  ∧ (∀ n, obj.masteryLevel = some n →
      (Flashcard.from_api obj).masteryLevel = some n)
  ∧ (∀ n, obj.wordType = some n → (Flashcard.from_api obj).wordType = some n)
  ∧ (∀ s, obj.idKey = some s → s ≠ "" → (Flashcard.from_api obj).id = s)
  ∧ ((obj.idKey = none ∨ obj.idKey = some "") →
      ∀ s, obj.idKey2 = some s → s ≠ "" → (Flashcard.from_api obj).id = s)
  ∧ ((obj.idKey = none ∨ obj.idKey = some "") →
      (obj.idKey2 = none ∨ obj.idKey2 = some "") →
      (Flashcard.from_api obj).id = "")
  ∧ (∀ c, obj.content.normal = some c → c ≠ "" →
      (Flashcard.from_api obj).audio_filename "normal" = some (c ++ ".mp3"))
  ∧ ((obj.content.normal = none ∨ obj.content.normal = some "") →
      (Flashcard.from_api obj).audio_filename "normal" = none)
  ∧ (∀ c, obj.content.slow = some c → c ≠ "" →
      (Flashcard.from_api obj).audio_filename "slow" = some (c ++ ".mp3"))
  ∧ ((obj.content.slow = none ∨ obj.content.slow = some "") →
      (Flashcard.from_api obj).audio_filename "slow" = none) := by
  refine ⟨?_, ?_, ?_, ?_, ?_, ?_, ?_, ?_, ?_, ?_, ?_, ?_, ?_, ?_, ?_, ?_, ?_,
    ?_, ?_, ?_, ?_⟩
  · intro h; simp [Flashcard.from_api, pyOrStr, h]; rfl
  · intro h; simp [Flashcard.from_api, pyOrStr, h]; rfl
  · intro h; simp [Flashcard.from_api, pyOrStr, h]; rfl
  · intro h; simp [Flashcard.from_api, pyOrStr, h]; rfl
  · intro h; simp [Flashcard.from_api, pyOrStr, h]; rfl
  · intro s h
    by_cases hs : s = "" <;> simp [Flashcard.from_api, pyOrStr, h, hs]
  · intro s h
    by_cases hs : s = "" <;> simp [Flashcard.from_api, pyOrStr, h, hs]
  · intro s h
    by_cases hs : s = "" <;> simp [Flashcard.from_api, pyOrStr, h, hs]
  · intro s h
    by_cases hs : s = "" <;> simp [Flashcard.from_api, pyOrStr, h, hs]
  · intro s h
    by_cases hs : s = "" <;> simp [Flashcard.from_api, pyOrStr, h, hs]
  · intro h; simp [Flashcard.from_api, h]
  · intro h; simp [Flashcard.from_api, h]
  · intro n h; simp [Flashcard.from_api, h]
  · intro n h; simp [Flashcard.from_api, h]
  · intro s h hs; simp [Flashcard.from_api, pyOrStr, h, hs]
  · intro h1 s h hs
    rcases h1 with h1 | h1 <;> simp [Flashcard.from_api, pyOrStr, h1, h, hs]
  · intro h1 h2
    rcases h1 with h1 | h1 <;> rcases h2 with h2 | h2 <;>
      simp [Flashcard.from_api, pyOrStr, h1, h2]
  · intro c h hc; simp [Flashcard.from_api, Flashcard.audio_filename, h, hc]
  · intro h
    rcases h with h | h <;>
      simp [Flashcard.from_api, Flashcard.audio_filename, h]
  · intro c h hc; simp [Flashcard.from_api, Flashcard.audio_filename, h, hc]
  · intro h
    rcases h with h | h <;>
      simp [Flashcard.from_api, Flashcard.audio_filename, h]

/-- Claim C6: compact-mode formatting yields front = simplified, suffixed
with the audio marker exactly when audio is requested and available at the
selected speed, and back = pinyin joined by an em-dash to the English gloss
(primary, or primary `" | "` secondary when the secondary gloss is
non-empty), or just the gloss when pinyin is empty; and the concrete
scenario wordType=2, english2 empty, english1="hello", pinyin="nǐ hǎo" with
audio disabled yields front = simplified and back = "nǐ hǎo — hello". -/
theorem to_simple_fields_spec (card : Flashcard) (speed : String) :
    ((to_simple_fields card false speed).1 = card.simplified)
  ∧ (card.audio_filename speed = none →
      ∀ ia, (to_simple_fields card ia speed).1 = card.simplified)
  ∧ (∀ fn, card.audio_filename speed = some fn →
      (to_simple_fields card true speed).1
        = card.simplified ++ " [sound:" ++ fn ++ "]")
  ∧ (∀ ia, card.pinyin ≠ "" → card.english2 = "" →
      (to_simple_fields card ia speed).2.1
        = card.pinyin ++ " — " ++ card.english1)
  ∧ (∀ ia, card.pinyin ≠ "" → card.english2 ≠ "" →
      (to_simple_fields card ia speed).2.1
        = card.pinyin ++ " — " ++ (card.english1 ++ " | " ++ card.english2))
  ∧ (∀ ia, card.pinyin = "" → card.english2 = "" →
      (to_simple_fields card ia speed).2.1 = card.english1)
  ∧ (∀ ia, card.pinyin = "" → card.english2 ≠ "" →
      (to_simple_fields card ia speed).2.1
        = card.english1 ++ " | " ++ card.english2)
  ∧ (card.wordType = some 2 → card.english2 = "" → card.english1 = "hello" →
      card.pinyin = "nǐ hǎo" →
      (to_simple_fields card false speed).1 = card.simplified
        ∧ (to_simple_fields card false speed).2.1 = "nǐ hǎo — hello") := by
  refine ⟨?_, ?_, ?_, ?_, ?_, ?_, ?_, ?_⟩
  · simp [to_simple_fields]
  · intro h ia; cases ia <;> simp [to_simple_fields, h]
  · intro fn h; simp [to_simple_fields, h]
  · intro ia hp he; simp [to_simple_fields, hp, he]
  · intro ia hp he; simp [to_simple_fields, hp, he]
  · intro ia hp he; simp [to_simple_fields, hp, he]
  · intro ia hp he; simp [to_simple_fields, hp, he]
  · intro _ he h1 hp
    constructor
    · simp [to_simple_fields]
    · have hp2 : card.pinyin ≠ "" := by rw [hp]; decide
      simp [to_simple_fields, hp, he, h1, hp2]

/-- Claim C8 counterexample: for a card with normal-speed audio, the rich
formatter called with the include-audio flag off reports no audio filename
even though the card resolves one, so the formatters do not report the
resolved filename for every flag value. -/
theorem rich_formatter_hides_audio_counterexample :
    (to_rich_fields sampleAudioCard false "normal").2 = none
  ∧ sampleAudioCard.audio_filename "normal" = some "abc123.mp3"
  ∧ (to_rich_fields sampleAudioCard false "normal").2
      ≠ sampleAudioCard.audio_filename "normal" := by
  refine ⟨rfl, by decide, by decide⟩

/-- Claim C8 (amended): alongside the row, the compact formatter always
returns the card's resolved audio filename for the requested speed (or its
absence), whatever the include-audio flag; the rich formatter returns the
resolved filename when include-audio is set and returns absence when it is
not. -/
theorem formatters_report_audio (card : Flashcard) (include_audio : Bool)
    (speed : String) :
    (to_simple_fields card include_audio speed).2.2 = card.audio_filename speed
  ∧ (to_rich_fields card true speed).2 = card.audio_filename speed
  ∧ (to_rich_fields card false speed).2 = none := by
  refine ⟨?_, ?_, ?_⟩
  · cases include_audio <;> simp [to_simple_fields]
  · simp [to_rich_fields]
  · simp [to_rich_fields]

theorem dedupGo_sublist (l : List (String × String)) :
    ∀ seen, (dedupGo seen l).Sublist l := by
  induction l with
  | nil => intro seen; simp [dedupGo]
  | cons p rest ih =>
      intro seen
      by_cases hp : p ∈ seen
      · simp only [dedupGo, if_pos hp]
        exact (ih seen).cons p
      · simp only [dedupGo, if_neg hp]
        exact (ih (p :: seen)).cons₂ p

theorem mem_dedupGo (l : List (String × String)) :
    ∀ seen q, q ∈ dedupGo seen l ↔ q ∈ l ∧ q ∉ seen := by
  induction l with
  | nil => intro seen q; simp [dedupGo]
  | cons p rest ih =>
      intro seen q
      by_cases hp : p ∈ seen
      · simp only [dedupGo, if_pos hp, ih, List.mem_cons]
        constructor
        · rintro ⟨hq, hs⟩; exact ⟨Or.inr hq, hs⟩
        · rintro ⟨hq | hq, hs⟩
          · subst hq; exact absurd hp hs
          · exact ⟨hq, hs⟩
      · simp only [dedupGo, if_neg hp, List.mem_cons, ih]
        constructor
        · rintro (hq | ⟨hq, hs⟩)
          · subst hq; exact ⟨Or.inl rfl, hp⟩
          · simp only [List.mem_cons, not_or] at hs
            exact ⟨Or.inr hq, hs.2⟩
        · rintro ⟨hq | hq, hs⟩
          · subst hq; exact Or.inl rfl
          · by_cases hqp : q = p
            · subst hqp; exact Or.inl rfl
            · exact Or.inr ⟨hq, by simp [List.mem_cons, hqp, hs]⟩

theorem dedupGo_nodup (l : List (String × String)) :
    ∀ seen, (dedupGo seen l).Nodup := by
  induction l with
  | nil => intro seen; simp [dedupGo]
  | cons p rest ih =>
      intro seen
      by_cases hp : p ∈ seen
      · simp only [dedupGo, if_pos hp]; exact ih seen
      · simp only [dedupGo, if_neg hp, List.nodup_cons]
        refine ⟨?_, ih (p :: seen)⟩
        rw [mem_dedupGo]
        rintro ⟨-, hs⟩
        exact hs (List.mem_cons_self p seen)

theorem dedupGo_eq_spec (l : List (String × String)) :
    ∀ seen, dedupGo seen l
      = dedupSpec (l.filter (fun q => decide (q ∉ seen))) := by
  induction l with
  | nil => intro seen; simp [dedupGo, dedupSpec]
  | cons p rest ih =>
      intro seen
      by_cases hp : p ∈ seen
      · rw [dedupGo, if_pos hp, ih, List.filter_cons]
        simp [hp]
      · rw [dedupGo, if_neg hp, ih, List.filter_cons]
        have hcons : (decide (p ∉ seen)) = true := by simp [hp]
        rw [hcons, if_pos rfl, dedupSpec]
        congr 1
        rw [List.filter_filter]
        apply congrArg
        apply List.filter_congr
        intro q _
        simp [List.mem_cons, not_or, and_comm]

/-- Claim C4: deduplication of (address, destination) download tasks keeps
the first occurrence of each distinct pair in first-seen order, collapses
repeated identical pairs to one, and keeps two tasks sharing an address but
differing in destination as distinct tasks: `dedup_tasks` equals the
keep-the-first-occurrence specification, is a sublist of the input (order
preserved), has no duplicates, keeps exactly the input's distinct pairs, and
keeps both of two same-address different-destination pairs. -/
theorem dedup_tasks_spec (l : List (String × String)) :
    dedup_tasks l = dedupSpec l
  ∧ (dedup_tasks l).Sublist l
  ∧ (dedup_tasks l).Nodup
  ∧ (∀ p, p ∈ dedup_tasks l ↔ p ∈ l)
  ∧ (∀ a d1 d2, (a, d1) ∈ l → (a, d2) ∈ l →
      (a, d1) ∈ dedup_tasks l ∧ (a, d2) ∈ dedup_tasks l) := by
  refine ⟨?_, dedupGo_sublist l [], dedupGo_nodup l [], ?_, ?_⟩
  · rw [dedup_tasks, dedupGo_eq_spec]
    congr 1
    simp
  · intro p
    rw [dedup_tasks, mem_dedupGo]
    simp
  · intro a d1 d2 h1 h2
    constructor <;> · rw [dedup_tasks, mem_dedupGo]; simp [h1, h2]

theorem tab_not_mem_sanitizeField (s : List Char) : '\t' ∉ sanitizeField s := by
  simp only [sanitizeField, List.mem_map, not_exists]
  rintro c ⟨hc, heq⟩
  by_cases h : c = '\t' <;> simp [h] at heq

/-- Claim C7: serializing a 2-field or 7-field row joins the fields with a
tab after replacing every literal tab inside a field with a single space;
splitting the serialized line on tab recovers exactly the sanitized fields
(2 for compact, 7 for rich), and sanitization is the identity on any field
without a literal tab, so serialization round-trips all field content except
literal tabs. -/
theorem tsv_line_roundtrip (front back : List Char) (fields : List (List Char))
    (h7 : fields.length = 7) :
    (tsv_simple_line front back).splitOn '\t'
      = [sanitizeField front, sanitizeField back]
  ∧ ((tsv_simple_line front back).splitOn '\t').length = 2
  ∧ (tsv_rich_line fields).splitOn '\t' = fields.map sanitizeField
  ∧ ((tsv_rich_line fields).splitOn '\t').length = 7
  ∧ (∀ s : List Char, '\t' ∉ s → sanitizeField s = s) := by
  have hsimple : (tsv_simple_line front back).splitOn '\t'
      = [sanitizeField front, sanitizeField back] := by
    have h1 : tsv_simple_line front back
        = ['\t'].intercalate [sanitizeField front, sanitizeField back] := by
      simp [tsv_simple_line, List.intercalate]
    rw [h1]
    apply List.splitOn_intercalate
    · intro l hl
      simp only [List.mem_cons, List.not_mem_nil, or_false] at hl
      rcases hl with h | h <;> · subst h; exact tab_not_mem_sanitizeField _
    · simp
  have hrich : (tsv_rich_line fields).splitOn '\t' = fields.map sanitizeField := by
    apply List.splitOn_intercalate
    · intro l hl
      rcases List.mem_map.mp hl with ⟨s, -, rfl⟩
      exact tab_not_mem_sanitizeField s
    · intro h
      have hlen := congrArg List.length h
      simp [h7] at hlen
  refine ⟨hsimple, by rw [hsimple]; rfl, hrich, by rw [hrich]; simp [h7], ?_⟩
  intro s hs
  have : ∀ c ∈ s, (if c = '\t' then ' ' else c) = c := by
    intro c hc
    have : c ≠ '\t' := fun h => hs (h ▸ hc)
    simp [this]
  calc sanitizeField s = s.map id := List.map_congr_left this
  _ = s := List.map_id s

/-- Claim C7 witness: the round-trip properties at a concrete 2-field row
containing a literal tab and a concrete 7-field row. -/
theorem tsv_line_roundtrip_witness :
    (tsv_simple_line "a\tb".data "c".data).splitOn '\t'
      = [sanitizeField "a\tb".data, sanitizeField "c".data]
  ∧ ((tsv_simple_line "a\tb".data "c".data).splitOn '\t').length = 2
  ∧ (tsv_rich_line ["1".data, "2".data, "3".data, "4".data, "5".data,
      "6".data, "7\t8".data]).splitOn '\t'
      = ["1".data, "2".data, "3".data, "4".data, "5".data, "6".data,
         "7\t8".data].map sanitizeField
  ∧ ((tsv_rich_line ["1".data, "2".data, "3".data, "4".data, "5".data,
      "6".data, "7\t8".data]).splitOn '\t').length = 7
  ∧ (∀ s : List Char, '\t' ∉ s → sanitizeField s = s) :=
  tsv_line_roundtrip "a\tb".data "c".data
    ["1".data, "2".data, "3".data, "4".data, "5".data, "6".data,
     "7\t8".data] rfl

theorem runAttempts_all_fail (retries : Nat) (backoff : ℚ)
    (outcomes : Nat → Attempt) (errs : Nat → String)
    (hfail : ∀ i, outcomes i = Attempt.err (errs i)) :
    ∀ (k a : Nat) (fs : FS) (lastErr : Option String) (sleeps : List ℚ)
      (made : Nat), 1 ≤ k → a + k = retries + 1 →
      runAttempts outcomes retries backoff (List.range' a k) fs lastErr sleeps
          made
        = ⟨DlResult.failure (some (errs retries)), ⟨false, fs.dest⟩, made + k,
           sleeps ++ (List.range' a (k - 1)).map (backoffSleep backoff)⟩ := by
  intro k
  induction k with
  | zero => intro a fs lastErr sleeps made h1 _; omega
  | succ k ih =>
      intro a fs lastErr sleeps made _ hsum
      rw [List.range'_succ]
      cases k with
      | zero =>
          have ha : a = retries := by omega
          subst ha
          simp [runAttempts, hfail a, le_refl]
      | succ k' =>
          have ha : ¬ retries ≤ a := by omega
          rw [runAttempts, hfail a]
          simp only [if_neg ha]
          rw [ih (a + 1) ⟨false, fs.dest⟩ (some (errs a))
            (sleeps ++ [backoffSleep backoff a]) (made + 1) (by omega)
            (by omega)]
          have hrange : List.range' a (k' + 1 + 1 - 1)
              = a :: List.range' (a + 1) (k' + 1 - 1 + 1 - 1) := by
            have h1 : k' + 1 + 1 - 1 = (k' + 1 - 1 + 1 - 1) + 1 := by omega
            rw [h1, List.range'_succ]
          rw [hrange]
          simp only [List.map_cons, List.append_assoc, List.singleton_append,
            DownloadRun.mk.injEq]
          refine ⟨trivial, trivial, by omega, rfl⟩

/-- Claim C2: a download task whose attempts all fail makes exactly the
configured number of fetch attempts (the retry budget, default 4), sleeps
`backoff * 2^(attempt-1) + min(0.25, 0.05 * attempt)` seconds between
consecutive attempts (attempts 1 through budget-1), and after exhausting the
budget raises an error carrying the last underlying failure. -/
theorem http_download_exhausts_retries (outcomes : Nat → Attempt)
    (errs : Nat → String) (retries : Nat) (backoff : ℚ) (fs : FS)
    (hr : 1 ≤ retries) (hfail : ∀ i, outcomes i = Attempt.err (errs i)) :
    (http_download outcomes retries backoff fs).attemptsMade = retries
  ∧ (http_download outcomes retries backoff fs).sleeps
      = (List.range' 1 (retries - 1)).map
          (fun i : Nat => backoff * 2 ^ (i - 1)
            + min (1 / 4 : ℚ) ((i : ℚ) / 20))
  ∧ (http_download outcomes retries backoff fs).result
      = DlResult.failure (some (errs retries))
  ∧ DEFAULT_RETRIES = 4 := by
  have hmax : max 1 retries = retries := Nat.max_eq_right hr
  have h := runAttempts_all_fail retries backoff outcomes errs hfail retries 1
    fs none [] 0 hr (by omega)
  rw [http_download, hmax, h]
  refine ⟨by simp, by simp [backoffSleep], rfl, rfl⟩

/-- Claim C2 witness: the retry/backoff behavior at a concrete all-failing
schedule with the default budget of 4 and the default base delay 0.75. -/
theorem http_download_exhausts_retries_witness :
    (http_download failingOutcomes 4 DEFAULT_BACKOFF ⟨false, false⟩).attemptsMade
        = 4
  ∧ (http_download failingOutcomes 4 DEFAULT_BACKOFF ⟨false, false⟩).sleeps
      = (List.range' 1 3).map
          (fun i : Nat => DEFAULT_BACKOFF * 2 ^ (i - 1)
            + min (1 / 4 : ℚ) ((i : ℚ) / 20))
  ∧ (http_download failingOutcomes 4 DEFAULT_BACKOFF ⟨false, false⟩).result
      = DlResult.failure (some (failingErrs 4))
  ∧ DEFAULT_RETRIES = 4 :=
  http_download_exhausts_retries failingOutcomes failingErrs 4 DEFAULT_BACKOFF
    ⟨false, false⟩ (by decide) (fun _ => rfl)

/-- Claim C3: a download task whose attempts all raise leaves, once
`http_download` has raised, neither the temporary `.part` sibling nor the
final destination file on disk (the destination not having existed before
the call), whatever leftover `.part` file existed beforehand. -/
theorem http_download_failure_leaves_no_files (outcomes : Nat → Attempt)
    (errs : Nat → String) (retries : Nat) (backoff : ℚ) (fs : FS)
    (hr : 1 ≤ retries) (hfail : ∀ i, outcomes i = Attempt.err (errs i))
    (hdest : fs.dest = false) :
    (http_download outcomes retries backoff fs).fs.tmp = false
  ∧ (http_download outcomes retries backoff fs).fs.dest = false
  ∧ (http_download outcomes retries backoff fs).result
      = DlResult.failure (some (errs retries)) := by
  have hmax : max 1 retries = retries := Nat.max_eq_right hr
  have h := runAttempts_all_fail retries backoff outcomes errs hfail retries 1
    fs none [] 0 hr (by omega)
  rw [http_download, hmax, h]
  exact ⟨rfl, hdest, rfl⟩

/-- Claim C3 witness: a concrete all-failing run started with a leftover
`.part` file and no destination file ends with neither file existing. -/
theorem http_download_failure_leaves_no_files_witness :
    (http_download failingOutcomes 4 DEFAULT_BACKOFF ⟨true, false⟩).fs.tmp
        = false
  ∧ (http_download failingOutcomes 4 DEFAULT_BACKOFF ⟨true, false⟩).fs.dest
      = false
  ∧ (http_download failingOutcomes 4 DEFAULT_BACKOFF ⟨true, false⟩).result
      = DlResult.failure (some (failingErrs 4)) :=
  http_download_failure_leaves_no_files failingOutcomes failingErrs 4
    DEFAULT_BACKOFF ⟨true, false⟩ (by decide) (fun _ => rfl) rfl

theorem bucketKey_cases (split : Bool) (c : Flashcard) :
    bucketKey split c = "Word" ∨ bucketKey split c = "Sentence"
      ∨ bucketKey split c = "All" := by
  rw [bucketKey, word_type_label]
  by_cases h2 : c.wordType = some 2
  · simp [h2]
    by_cases hs : split = true <;> simp [hs]
  · by_cases h3 : c.wordType = some 3
    · simp [h2, h3]
    · simp [h2, h3]

theorem bucketKey_false (c : Flashcard) : bucketKey false c = "All" := by
  rw [bucketKey]
  simp

theorem bucketKey_true_eq (c : Flashcard) :
    bucketKey true c
      = (if word_type_label c.wordType = "Word"
           ∨ word_type_label c.wordType = "Sentence"
         then word_type_label c.wordType else "All") := by
  rw [bucketKey]
  by_cases hw : word_type_label c.wordType = "Word"
  · simp [hw]
  · by_cases hs : word_type_label c.wordType = "Sentence" <;> simp [hw, hs]

theorem accumulateBuckets_eq_filter (split : Bool) (cards : List Flashcard) :
    accumulateBuckets split cards
      = (cards.filter (fun c => bucketKey split c == "Word"),
         cards.filter (fun c => bucketKey split c == "Sentence"),
         cards.filter (fun c => bucketKey split c != "Word"
           && bucketKey split c != "Sentence")) := by
  induction cards with
  | nil => simp [accumulateBuckets]
  | cons c rest ih =>
      rw [accumulateBuckets, ih]
      by_cases hw : bucketKey split c = "Word"
      · simp [List.filter_cons, hw]
      · by_cases hs : bucketKey split c = "Sentence"
        · simp [List.filter_cons, hw, hs]
        · simp [List.filter_cons, hw, hs]

theorem foldl_snoc_eq (l : List Flashcard) :
    ∀ acc, l.foldl (fun acc c => acc ++ [c]) acc = acc ++ l := by
  induction l with
  | nil => intro acc; simp
  | cons c rest ih => intro acc; simp [List.foldl_cons, ih]

theorem label_partition_count (cards : List Flashcard) :
    (cards.filter (fun c => word_type_label c.wordType == "Word")).length
  + (cards.filter (fun c => word_type_label c.wordType == "Sentence")).length
  + (cards.filter (fun c => word_type_label c.wordType != "Word"
      && word_type_label c.wordType != "Sentence")).length = cards.length := by
  induction cards with
  | nil => rfl
  | cons c rest ih =>
      simp only [List.filter_cons]
      by_cases hw : word_type_label c.wordType = "Word"
      · simp only [hw, beq_self_eq_true, if_pos, bne_self_eq_false,
          Bool.false_and, if_neg, List.length_cons]
        simp only [show (("Word" : String) == "Sentence") = false by rfl,
          if_neg, Bool.false_eq_true, not_false_iff]
        omega
      · by_cases hs : word_type_label c.wordType = "Sentence"
        · simp [hw, hs]
          omega
        · simp [hw, hs]
          omega

/-- Claim C9 counterexample: under the category-label partition, a fetched
card whose `wordType` is neither 2 nor 3 lands in the unsplit accumulator,
and the split-mode write stage, which only writes the Word and Sentence
buckets, writes no bucket at all for the one-card run — the card belongs to
no output bucket. -/
theorem split_mode_drops_unlabeled_counterexample :
    accumulateBuckets true [unlabeledCard] = ([], [], [unlabeledCard])
  ∧ writtenBucketsSplit [unlabeledCard] = [] := by
  constructor <;> rfl

/-- Claim C9 (amended): the bucket assignment of the card loop is a total
function placing each fetched card in exactly one accumulator: with no
partition active every card goes to the single implicit "All" bucket; under
the by-level partition each level's bucket is exactly the cards fetched for
that level; under the category-label partition cards labeled Word or
Sentence go to exactly that bucket and all other cards go to the unsplit
accumulator — which the split-mode write stage does not write, so such
cards appear in no output bucket. -/
theorem bucket_assignment_spec (cards : List Flashcard)
    (cards_by_level : List (List Flashcard)) :
    accumulateBuckets false cards = ([], [], cards)
  ∧ accumulateBuckets true cards
      = (cards.filter (fun c => word_type_label c.wordType == "Word"),
         cards.filter (fun c => word_type_label c.wordType == "Sentence"),
         cards.filter (fun c => word_type_label c.wordType != "Word"
           && word_type_label c.wordType != "Sentence"))
  ∧ (accumulateBuckets true cards).1.length
      + (accumulateBuckets true cards).2.1.length
      + (accumulateBuckets true cards).2.2.length = cards.length
  ∧ (∀ c, bucketKey false c = "All")
  ∧ accumulateLevels cards_by_level = cards_by_level
  ∧ (writtenBucketsSplit cards).length ≤ 2 := by
  have hkey : ∀ c : Flashcard,
      (bucketKey true c == "Word") = (word_type_label c.wordType == "Word")
      ∧ (bucketKey true c == "Sentence")
          = (word_type_label c.wordType == "Sentence") := by
    intro c
    rw [bucketKey_true_eq]
    by_cases hw : word_type_label c.wordType = "Word"
    · simp [hw]
    · by_cases hs : word_type_label c.wordType = "Sentence" <;> simp [hw, hs]
  have hfilters : accumulateBuckets true cards
      = (cards.filter (fun c => word_type_label c.wordType == "Word"),
         cards.filter (fun c => word_type_label c.wordType == "Sentence"),
         cards.filter (fun c => word_type_label c.wordType != "Word"
           && word_type_label c.wordType != "Sentence")) := by
    rw [accumulateBuckets_eq_filter]
    refine congrArg₂ Prod.mk ?_ (congrArg₂ Prod.mk ?_ ?_)
    · exact List.filter_congr fun c _ => (hkey c).1
    · exact List.filter_congr fun c _ => (hkey c).2
    · refine List.filter_congr fun c _ => ?_
      rw [bne, bne, bne, bne, (hkey c).1, (hkey c).2]
  refine ⟨?_, hfilters, ?_, fun c => bucketKey_false c, ?_, ?_⟩
  · rw [accumulateBuckets_eq_filter]
    refine congrArg₂ Prod.mk ?_ (congrArg₂ Prod.mk ?_ ?_)
    · apply List.filter_eq_nil_iff.mpr
      intro c _
      simp [bucketKey_false c]
    · apply List.filter_eq_nil_iff.mpr
      intro c _
      simp [bucketKey_false c]
    · apply List.filter_eq_self.mpr
      intro c _
      simp [bucketKey_false c]
  · rw [hfilters]
    exact label_partition_count cards
  · rw [accumulateLevels]
    conv_rhs => rw [← List.map_id cards_by_level]
    apply List.map_congr_left
    intro l _
    exact foldl_snoc_eq l []
  · rw [writtenBucketsSplit]
    have := List.length_filter_le (fun kv : String × List Flashcard =>
      !kv.2.isEmpty) [("Word", (accumulateBuckets true cards).1),
        ("Sentence", (accumulateBuckets true cards).2.1)]
    simpa using this

theorem accAfter_zero (acc : List Flashcard) (pages : List Page) :
    accAfter acc pages 0 = acc := by
  simp [accAfter]

theorem accAfter_succ (acc : List Flashcard) (p : Page) (rest : List Page)
    (j : Nat) :
    accAfter acc (p :: rest) (j + 1) = accAfter (acc ++ p.flashcards) rest j := by
  simp [accAfter, List.take_succ_cons, List.flatten_cons, List.append_assoc]

theorem accAfter_one_cons (acc : List Flashcard) (p : Page) (rest : List Page) :
    accAfter acc (p :: rest) 1 = acc ++ p.flashcards := by
  rw [accAfter_succ, accAfter_zero]

theorem accAfter_one_nil (acc : List Flashcard) : accAfter acc [] 1 = acc := by
  simp [accAfter]

theorem totAfter_succ (total : Option Nat) (p : Page) (rest : List Page)
    (j : Nat) :
    totAfter total (p :: rest) (j + 1)
      = totAfter (total.or p.totalFlashcards) rest j := by
  rw [totAfter, totAfter, List.take_succ_cons, List.filterMap_cons]
  cases h : p.totalFlashcards with
  | none => rw [Option.or_none]
  | some t =>
      rw [List.head?_cons]
      cases total <;> rfl

theorem totAfter_one_cons (total : Option Nat) (p : Page) (rest : List Page) :
    totAfter total (p :: rest) 1 = total.or p.totalFlashcards := by
  rw [totAfter_succ, totAfter]
  simp [Option.or_none]

theorem batchAt_one_cons (p : Page) (rest : List Page) :
    batchAt (p :: rest) 1 = p.flashcards := rfl

theorem batchAt_one_nil : batchAt [] 1 = ([] : List Flashcard) := rfl

theorem batchAt_cons_succ (p : Page) (rest : List Page) (j : Nat)
    (hj : 1 ≤ j) : batchAt (p :: rest) (j + 1) = batchAt rest j := by
  rw [batchAt, batchAt]
  have h : j + 1 - 1 = (j - 1) + 1 := by omega
  rw [h, List.drop_succ_cons]

theorem stopAt_one_cons (max_cards : Option Nat) (total : Option Nat)
    (acc : List Flashcard) (p : Page) (rest : List Page) :
    stopAt max_cards total acc (p :: rest) 1
      = (capReached max_cards (acc ++ p.flashcards).length
         || p.flashcards.isEmpty
         || totalReached (total.or p.totalFlashcards)
              (acc ++ p.flashcards).length) := by
  rw [stopAt, accAfter_one_cons, totAfter_one_cons, batchAt_one_cons]

theorem stopAt_succ (max_cards : Option Nat) (total : Option Nat)
    (acc : List Flashcard) (p : Page) (rest : List Page) (j : Nat)
    (hj : 1 ≤ j) :
    stopAt max_cards total acc (p :: rest) (j + 1)
      = stopAt max_cards (total.or p.totalFlashcards) (acc ++ p.flashcards)
          rest j := by
  rw [stopAt, stopAt, accAfter_succ, totAfter_succ, batchAt_cons_succ _ _ _ hj]

theorem resultAt_succ (max_cards : Option Nat) (acc : List Flashcard)
    (p : Page) (rest : List Page) (j : Nat) :
    resultAt max_cards acc (p :: rest) (j + 1)
      = resultAt max_cards (acc ++ p.flashcards) rest j := by
  rw [resultAt, resultAt, accAfter_succ]

theorem fetch_go_spec (max_cards : Option Nat) (pages : List Page) :
    ∀ (total : Option Nat) (acc : List Flashcard),
      ∃ k, 1 ≤ k ∧ k ≤ pages.length + 1
        ∧ (∀ j, 1 ≤ j → j < k → stopAt max_cards total acc pages j = false)
        ∧ stopAt max_cards total acc pages k = true
        ∧ fetch_go max_cards pages total acc = resultAt max_cards acc pages k := by
  induction pages with
  | nil =>
      intro total acc
      refine ⟨1, le_refl 1, by simp, fun j hj1 hj2 => absurd hj2 (by omega),
        ?_, ?_⟩
      · rw [stopAt, batchAt_one_nil]
        simp
      · rw [fetch_go, resultAt, accAfter_one_nil]
  | cons p rest ih =>
      intro total acc
      by_cases hstop : stopAt max_cards total acc (p :: rest) 1 = true
      · refine ⟨1, le_refl 1, by simp, fun j hj1 hj2 => absurd hj2 (by omega),
          hstop, ?_⟩
        rw [stopAt_one_cons] at hstop
        rw [resultAt, accAfter_one_cons]
        simp only [fetch_go]
        cases hc : capReached max_cards (acc ++ p.flashcards).length with
        | true => simp [hc]
        | false =>
            rw [hc] at hstop
            simp only [Bool.false_or] at hstop
            simp only [hc, Bool.false_eq_true, if_false]
            cases he : p.flashcards.isEmpty with
            | true => simp [he]
            | false =>
                rw [he] at hstop
                simp only [Bool.false_or] at hstop
                simp only [he, Bool.false_eq_true, if_false, hstop, if_true]
      · have hfalse : stopAt max_cards total acc (p :: rest) 1 = false :=
          Bool.not_eq_true _ |>.mp hstop
        rw [stopAt_one_cons] at hfalse
        simp only [Bool.or_eq_false_iff] at hfalse
        obtain ⟨⟨hc, he⟩, ht⟩ := hfalse
        obtain ⟨k, hk1, hklen, hmin, hkstop, hres⟩ :=
          ih (total.or p.totalFlashcards) (acc ++ p.flashcards)
        refine ⟨k + 1, by omega, ?_, ?_, ?_, ?_⟩
        · simp only [List.length_cons]; omega
        · intro j hj1 hj2
          rcases Nat.lt_or_ge j 2 with hj | hj
          · have hj' : j = 1 := by omega
            subst hj'
            rw [stopAt_one_cons, hc, he, ht]
            rfl
          · obtain ⟨j', rfl⟩ : ∃ j', j = j' + 1 := ⟨j - 1, by omega⟩
            rw [stopAt_succ _ _ _ _ _ _ (by omega)]
            exact hmin j' (by omega) (by omega)
        · rw [stopAt_succ _ _ _ _ _ _ hk1]
          exact hkstop
        · simp only [fetch_go]
          rw [hc, he, ht]
          simp only [Bool.false_eq_true, if_false]
          rw [resultAt_succ]
          exact hres

/-- Claim C1: for every sequence of page responses, `fetch_all_flashcards`
stops exactly after the first page `k` at which one of the three conditions
checked after each page holds — cap reached, empty batch, or reported total
reached (no earlier page satisfies any of them) — returning the cards of the
first `k` pages, truncated to exactly the cap when the cap condition fired;
in particular the result never holds more than the cap when one is set. -/
theorem fetch_stops_at_first_condition (pages : List Page)
    (max_cards : Option Nat) :
    ∃ k, 1 ≤ k ∧ k ≤ pages.length + 1
      ∧ (∀ j, 1 ≤ j → j < k → stopAt max_cards none [] pages j = false)
      ∧ stopAt max_cards none [] pages k = true
      ∧ fetch_all_flashcards pages max_cards = resultAt max_cards [] pages k
      ∧ (∀ m, max_cards = some m →
          capReached max_cards (accAfter [] pages k).length = true →
          (fetch_all_flashcards pages max_cards).length = m)
      ∧ (∀ m, max_cards = some m →
          (fetch_all_flashcards pages max_cards).length ≤ m) := by
  obtain ⟨k, h1, h2, h3, h4, h5⟩ := fetch_go_spec max_cards pages none []
  have hcap_len : ∀ m, max_cards = some m →
      capReached max_cards (accAfter [] pages k).length = true →
      (fetch_all_flashcards pages max_cards).length = m := by
    intro m hm hc
    rw [fetch_all_flashcards, h5, resultAt, if_pos hc, hm]
    rw [hm, capReached] at hc
    simp only [decide_eq_true_eq] at hc
    simp only [Option.getD_some, List.length_take]
    omega
  refine ⟨k, h1, h2, h3, h4, h5, hcap_len, ?_⟩
  intro m hm
  cases hc : capReached max_cards (accAfter [] pages k).length with
  | true => rw [hcap_len m hm hc]
  | false =>
      rw [fetch_all_flashcards, h5, resultAt]
      simp only [hc, Bool.false_eq_true, if_false]
      rw [hm, capReached] at hc
      simp only [decide_eq_false_iff_not] at hc
      omega

theorem fetch_go_some_total (max_cards : Option Nat) (t : Nat) :
    ∀ (rest rest' : List Page) (acc : List Flashcard),
      rest.map Page.flashcards = rest'.map Page.flashcards →
      fetch_go max_cards rest (some t) acc
        = fetch_go max_cards rest' (some t) acc := by
  intro rest
  induction rest with
  | nil =>
      intro rest' acc h
      cases rest' with
      | nil => rfl
      | cons q qs => simp at h
  | cons p ps ih =>
      intro rest' acc h
      cases rest' with
      | nil => simp at h
      | cons q qs =>
          simp only [List.map_cons, List.cons.injEq] at h
          obtain ⟨hf, hrest⟩ := h
          simp only [fetch_go, hf]
          have hor : (some t).or p.totalFlashcards = some t := rfl
          have hor' : (some t).or q.totalFlashcards = some t := rfl
          rw [hor, hor']
          cases hcap : capReached max_cards (acc ++ q.flashcards).length with
          | true => rfl
          | false =>
              simp only [hcap, Bool.false_eq_true, if_false]
              cases hemp : q.flashcards.isEmpty with
              | true => rfl
              | false =>
                  simp only [hemp, Bool.false_eq_true, if_false]
                  cases htot : totalReached (some t)
                      (acc ++ q.flashcards).length with
                  | true => rfl
                  | false =>
                      simp only [htot, Bool.false_eq_true, if_false]
                      exact ih qs (acc ++ q.flashcards) hrest

theorem fetch_go_total_first_go (max_cards : Option Nat) (p : Page)
    (rest rest' : List Page) (t : Nat)
    (ht : p.totalFlashcards = some t)
    (hrec : rest.map Page.flashcards = rest'.map Page.flashcards) :
    ∀ (pre : List Page) (acc : List Flashcard),
      (∀ q ∈ pre, q.totalFlashcards = none) →
      fetch_go max_cards (pre ++ p :: rest) none acc
        = fetch_go max_cards (pre ++ p :: rest') none acc := by
  intro pre
  induction pre with
  | nil =>
      intro acc _
      simp only [List.nil_append, fetch_go, ht, Option.none_or]
      cases hcap : capReached max_cards (acc ++ p.flashcards).length with
      | true => rfl
      | false =>
          simp only [hcap, Bool.false_eq_true, if_false]
          cases hemp : p.flashcards.isEmpty with
          | true => rfl
          | false =>
              simp only [hemp, Bool.false_eq_true, if_false]
              cases htot : totalReached (some t) (acc ++ p.flashcards).length with
              | true => rfl
              | false =>
                  simp only [htot, Bool.false_eq_true, if_false]
                  exact fetch_go_some_total max_cards t rest rest'
                    (acc ++ p.flashcards) hrec
  | cons q qs ih =>
      intro acc hpre
      have hq : q.totalFlashcards = none := hpre q (List.mem_cons_self q qs)
      simp only [List.cons_append, fetch_go, hq, Option.or_none]
      cases hcap : capReached max_cards (acc ++ q.flashcards).length with
      | true => rfl
      | false =>
          simp only [hcap, Bool.false_eq_true, if_false]
          cases hemp : q.flashcards.isEmpty with
          | true => rfl
          | false =>
              simp only [hemp, Bool.false_eq_true, if_false]
              cases htot : totalReached none (acc ++ q.flashcards).length with
              | true => rfl
              | false =>
                  simp only [htot, Bool.false_eq_true, if_false]
                  exact ih (acc ++ q.flashcards)
                    (fun r hr => hpre r (List.mem_cons_of_mem q hr))

/-- Claim C10: the total used by the pagination loop's stop condition is the
first non-absent `totalFlashcards` value reported by any page, in page
order: once some page `p` (preceded only by pages reporting no total)
reports a total, the totals reported by all later pages are ignored — the
fetch result is unchanged when the later pages keep their batches but
report arbitrarily different totals. -/
theorem fetch_total_first_reported (max_cards : Option Nat) (pre : List Page)
    (p : Page) (rest rest' : List Page) (t : Nat)
    (hpre : ∀ q ∈ pre, q.totalFlashcards = none)
    (ht : p.totalFlashcards = some t)
    (hrec : rest.map Page.flashcards = rest'.map Page.flashcards) :
    fetch_all_flashcards (pre ++ p :: rest) max_cards
      = fetch_all_flashcards (pre ++ p :: rest') max_cards :=
  fetch_go_total_first_go max_cards p rest rest' t ht hrec pre [] hpre

/-- Claim C10 witness: a concrete run in which page 1 reports no total and
page 2 reports 5; replacing the totals of pages 3 and 4 (100 and absent)
with entirely different ones (2 and 7) leaves the fetched cards unchanged. -/
theorem fetch_total_first_reported_witness :
    fetch_all_flashcards ([pageNoTotal] ++ pageTotalFive :: tailTotalsA) none
      = fetch_all_flashcards ([pageNoTotal] ++ pageTotalFive :: tailTotalsB)
          none :=
  fetch_total_first_reported none [pageNoTotal] pageTotalFive tailTotalsA
    tailTotalsB 5 (by decide) rfl rfl
